import Mathlib

/-!
# MyData-Service: verification of the repository core

A shallow embedding of the repository abstraction of the MyData-Service
corpus and proofs about it.  The embedded code is:

* `src/src/repository/fs-repository.js` — the file-backed namespace store
  (per-operation load of the namespace file, identifier-cursor computation,
  upsert-style insert, whole-dataset persist, delete);
* `src/fs-data-archive.js` — the class-based file archive (its `delete`
  rollback path);
* `src/src/repository/mongo-repository.js` — the database-backed store
  (`perform` connection wrapper, `update` via `$set`+upsert, `deleteOne`).

JavaScript-object datasets are modelled as association lists in insertion
order.  JSON values carry integer numerals (the identifiers this system
manipulates are integers; no property here depends on non-integer numbers).
`JSON.stringify` / `JSON.parse` are modelled by an executable renderer and
parser over the same value type, related by a proved round-trip theorem;
the renderer escapes the two characters (`"` and `\`) whose escaping the
round trip relies on (JavaScript additionally escapes control characters,
which affects neither the round trip nor any claim).
-/

namespace MyData

/-- A JSON-compatible value, as stored in a namespace dataset.  Numbers are
integers (the identifier arithmetic of the store is integral). -/
inductive JsonV where
  | null
  | bool (b : Bool)
  | num (n : Int)
  | str (s : String)
  | arr (items : List JsonV)
  | obj (fields : List (String × JsonV))

mutual

/-- Decidable equality on values (written out because `deriving` does not
handle the nesting). -/
def decEqV : (a b : JsonV) → Decidable (a = b)
  | .null, .null => .isTrue rfl
  | .bool a, .bool b =>
      if h : a = b then .isTrue (by rw [h]) else .isFalse (fun e => by cases e; exact h rfl)
  | .num a, .num b =>
      if h : a = b then .isTrue (by rw [h]) else .isFalse (fun e => by cases e; exact h rfl)
  | .str a, .str b =>
      if h : a = b then .isTrue (by rw [h]) else .isFalse (fun e => by cases e; exact h rfl)
  | .arr as, .arr bs =>
      match decEqArrV as bs with
      | .isTrue h => .isTrue (by rw [h])
      | .isFalse h => .isFalse (fun e => by cases e; exact h rfl)
  | .obj fs, .obj gs =>
      match decEqObjV fs gs with
      | .isTrue h => .isTrue (by rw [h])
      | .isFalse h => .isFalse (fun e => by cases e; exact h rfl)
  | .null, .bool _ => .isFalse (fun h => nomatch h)
  | .null, .num _ => .isFalse (fun h => nomatch h)
  | .null, .str _ => .isFalse (fun h => nomatch h)
  | .null, .arr _ => .isFalse (fun h => nomatch h)
  | .null, .obj _ => .isFalse (fun h => nomatch h)
  | .bool _, .null => .isFalse (fun h => nomatch h)
  | .bool _, .num _ => .isFalse (fun h => nomatch h)
  | .bool _, .str _ => .isFalse (fun h => nomatch h)
  | .bool _, .arr _ => .isFalse (fun h => nomatch h)
  | .bool _, .obj _ => .isFalse (fun h => nomatch h)
  | .num _, .null => .isFalse (fun h => nomatch h)
  | .num _, .bool _ => .isFalse (fun h => nomatch h)
  | .num _, .str _ => .isFalse (fun h => nomatch h)
  | .num _, .arr _ => .isFalse (fun h => nomatch h)
  | .num _, .obj _ => .isFalse (fun h => nomatch h)
  | .str _, .null => .isFalse (fun h => nomatch h)
  | .str _, .bool _ => .isFalse (fun h => nomatch h)
  | .str _, .num _ => .isFalse (fun h => nomatch h)
  | .str _, .arr _ => .isFalse (fun h => nomatch h)
  | .str _, .obj _ => .isFalse (fun h => nomatch h)
  | .arr _, .null => .isFalse (fun h => nomatch h)
  | .arr _, .bool _ => .isFalse (fun h => nomatch h)
  | .arr _, .num _ => .isFalse (fun h => nomatch h)
  | .arr _, .str _ => .isFalse (fun h => nomatch h)
  | .arr _, .obj _ => .isFalse (fun h => nomatch h)
  | .obj _, .null => .isFalse (fun h => nomatch h)
  | .obj _, .bool _ => .isFalse (fun h => nomatch h)
  | .obj _, .num _ => .isFalse (fun h => nomatch h)
  | .obj _, .str _ => .isFalse (fun h => nomatch h)
  | .obj _, .arr _ => .isFalse (fun h => nomatch h)
  termination_by structural a => a

def decEqArrV : (as bs : List JsonV) → Decidable (as = bs)
  | [], [] => .isTrue rfl
  | a :: as, b :: bs =>
      match decEqV a b with
      | .isFalse h => .isFalse (fun e => by cases e; exact h rfl)
      | .isTrue h1 =>
          match decEqArrV as bs with
          | .isTrue h2 => .isTrue (by rw [h1, h2])
          | .isFalse h2 => .isFalse (fun e => by cases e; exact h2 rfl)
  | [], _ :: _ => .isFalse (fun h => nomatch h)
  | _ :: _, [] => .isFalse (fun h => nomatch h)
  termination_by structural as => as

def decEqObjV : (fs gs : List (String × JsonV)) → Decidable (fs = gs)
  | [], [] => .isTrue rfl
  | (k, v) :: fs, (k', v') :: gs =>
      if hk : k = k' then
        match decEqV v v' with
        | .isFalse h => .isFalse (fun e => by cases e; exact h rfl)
        | .isTrue h1 =>
            match decEqObjV fs gs with
            | .isTrue h2 => .isTrue (by rw [hk, h1, h2])
            | .isFalse h2 => .isFalse (fun e => by cases e; exact h2 rfl)
      else .isFalse (fun e => by cases e; exact hk rfl)
  | [], _ :: _ => .isFalse (fun h => nomatch h)
  | _ :: _, [] => .isFalse (fun h => nomatch h)
  termination_by structural fs => fs

end

instance : DecidableEq JsonV := decEqV

namespace JsonV

/-- The fields of a value viewed as a JavaScript object (non-objects have
none; the store only ever places objects in these positions). -/
def fieldsOf : JsonV → List (String × JsonV)
  | .obj fs => fs
  | _ => []

end JsonV

/-- Association-list lookup: the value stored under a key, if any. -/
def keyGet {α : Type} (l : List (String × α)) (k : String) : Option α :=
  match l with
  | [] => none
  | (k', v) :: tl => if k' = k then some v else keyGet tl k

/-- Association-list update, JavaScript-object style: an existing key keeps
its position, a new key is appended at the end. -/
def keySet {α : Type} (l : List (String × α)) (k : String) (v : α) :
    List (String × α) :=
  match l with
  | [] => [(k, v)]
  | (k', v') :: tl => if k' = k then (k, v) :: tl else (k', v') :: keySet tl k v

/-- Association-list removal of a key (JavaScript `delete obj[k]`). -/
def keyDel {α : Type} (l : List (String × α)) (k : String) : List (String × α) :=
  match l with
  | [] => []
  | (k', v') :: tl => if k' = k then tl else (k', v') :: keyDel tl k





/-- Keys of a JavaScript object are distinct. -/
def NodupKeys {α : Type} (l : List (String × α)) : Prop := (l.map Prod.fst).Nodup

instance {α : Type} (l : List (String × α)) : Decidable (NodupKeys l) := by
  unfold NodupKeys; infer_instance




/-! ## `JSON.stringify`: the renderer

The store persists a dataset with `JSON.stringify(dataset)` (fs-repository
`save`, fs-data-archive `save`).  `stringify` below renders the same
canonical whitespace-free form.  Strings escape `"` and `\` (JavaScript
additionally escapes control characters; no claim depends on that). -/

/-- The character for a decimal digit `d < 10`. -/
def digifyChar (d : Nat) : Char := Char.ofNat (48 + d)

/-- Worker for `digify`: structural on a fuel counter so that rendering
computes inside the kernel; any `fuel > 0` with `n < 10 ^ fuel` suffices,
and `digify` passes `n + 1`. -/
def digifyAux : Nat → Nat → List Char
  | 0, _ => []
  | fuel + 1, n =>
      if n < 10 then [digifyChar n] else digifyAux fuel (n / 10) ++ [digifyChar (n % 10)]

/-- Decimal digit characters of a natural number, most significant first. -/
def digify (n : Nat) : List Char := digifyAux (n + 1) n

/-- Characters of an integer: a minus sign when negative, then digits.  This
is also how JavaScript turns an integral number into a string (object keys,
`parseInt` round-trips). -/
def intify (i : Int) : List Char :=
  if i < 0 then '-' :: digify i.natAbs else digify i.toNat

/-- One string character, escaped as the renderer emits it. -/
def escChar (c : Char) : List Char :=
  if c = '"' ∨ c = '\\' then ['\\', c] else [c]

/-- A rendered string literal: quote, escaped body, quote. -/
def rendStr (s : String) : List Char :=
  '"' :: (s.data.flatMap escChar ++ ['"'])

mutual

/-- Characters of the rendered value (`JSON.stringify`, whitespace-free). -/
def rend : JsonV → List Char
  | .null => "null".data
  | .bool true => "true".data
  | .bool false => "false".data
  | .num n => intify n
  | .str s => rendStr s
  | .arr items => '[' :: (rendArr items ++ [']'])
  | .obj fields => '{' :: (rendObj fields ++ ['}'])
  termination_by structural v => v

def rendArr : List JsonV → List Char
  | [] => []
  | v :: vs => rend v ++ rendArrTail vs
  termination_by structural l => l

def rendArrTail : List JsonV → List Char
  | [] => []
  | v :: vs => ',' :: (rend v ++ rendArrTail vs)
  termination_by structural l => l

def rendObj : List (String × JsonV) → List Char
  | [] => []
  | (k, v) :: fs => rendStr k ++ ':' :: (rend v ++ rendObjTail fs)
  termination_by structural l => l

def rendObjTail : List (String × JsonV) → List Char
  | [] => []
  | (k, v) :: fs => ',' :: (rendStr k ++ ':' :: (rend v ++ rendObjTail fs))
  termination_by structural l => l

end

/-- `JSON.stringify`. -/
def stringify (v : JsonV) : String := String.mk (rend v)

/-! ## `JSON.parse`: the parser

An executable parser for the canonical form the renderer emits (which is
exactly what the store ever writes), structurally recursive on a fuel
counter.  `parse` inverts `stringify` — proved below as `parse_stringify`. -/

/-- Is `c` a decimal digit? -/
def isDig (c : Char) : Bool := 48 ≤ c.toNat && c.toNat ≤ 57

/-- Digit-prefix split: the leading run of digits, and the remainder. -/
def digSpan : List Char → List Char × List Char
  | [] => ([], [])
  | c :: cs =>
      if isDig c then
        let p := digSpan cs
        (c :: p.1, p.2)
      else ([], c :: cs)

/-- The numeric value of a digit run. -/
def digsVal (ds : List Char) : Nat :=
  ds.foldl (fun a c => a * 10 + (c.toNat - 48)) 0

/-- Parse the body of a string literal after the opening quote: a backslash
takes the next character literally (inverting `escChar`), an unescaped quote
closes the literal. -/
def strBody (acc : List Char) : List Char → Option (String × List Char)
  | '\\' :: e :: cs => strBody (e :: acc) cs
  | '"' :: cs => some (String.mk acc.reverse, cs)
  | c :: cs => strBody (c :: acc) cs
  | [] => none

/-- Parse a number (sign already consumed when `neg`). -/
def pNum (neg : Bool) (cs : List Char) : Option (JsonV × List Char) :=
  match cs with
  | [] => none
  | c :: cs' =>
      if isDig c then
        let p := digSpan (c :: cs')
        let m : Int := (digsVal p.1 : Int)
        some (.num (if neg then -m else m), p.2)
      else none

mutual

/-- Parse one JSON value from the head of the input. -/
def pVal : Nat → List Char → Option (JsonV × List Char)
  | 0, _ => none
  | fuel + 1, cs =>
      match cs with
      | [] => none
      | c :: r =>
          if isDig c then pNum false (c :: r)
          else if c = '-' then pNum true r
          else if c = '"' then
            match strBody [] r with
            | some (s, r') => some (.str s, r')
            | none => none
          else if c = '[' then
            match r with
            | [] => none
            | c2 :: r2 =>
                if c2 = ']' then some (.arr [], r2)
                else
                  match pArr fuel (c2 :: r2) with
                  | some (vs, r') => some (.arr vs, r')
                  | none => none
          else if c = '{' then
            match r with
            | [] => none
            | c2 :: r2 =>
                if c2 = '}' then some (.obj [], r2)
                else
                  match pObj fuel (c2 :: r2) with
                  | some (fs, r') => some (.obj fs, r')
                  | none => none
          else
            match c :: r with
            | 'n' :: 'u' :: 'l' :: 'l' :: r2 => some (.null, r2)
            | 't' :: 'r' :: 'u' :: 'e' :: r2 => some (.bool true, r2)
            | 'f' :: 'a' :: 'l' :: 's' :: 'e' :: r2 => some (.bool false, r2)
            | _ => none
  termination_by structural fuel _ => fuel

/-- Parse the comma-separated elements of a nonempty array, through `]`. -/
def pArr : Nat → List Char → Option (List JsonV × List Char)
  | 0, _ => none
  | fuel + 1, cs =>
      match pVal fuel cs with
      | none => none
      | some (v, r) =>
          match r with
          | ',' :: r' =>
              match pArr fuel r' with
              | some (vs, r'') => some (v :: vs, r'')
              | none => none
          | ']' :: r' => some ([v], r')
          | _ => none
  termination_by structural fuel _ => fuel

/-- Parse the members of a nonempty object, through `}`. -/
def pObj : Nat → List Char → Option (List (String × JsonV) × List Char)
  | 0, _ => none
  | fuel + 1, cs =>
      match cs with
      | '"' :: r =>
          match strBody [] r with
          | none => none
          | some (k, r1) =>
              match r1 with
              | ':' :: r2 =>
                  match pVal fuel r2 with
                  | none => none
                  | some (v, r3) =>
                      match r3 with
                      | ',' :: r4 =>
                          match pObj fuel r4 with
                          | some (fs, r5) => some ((k, v) :: fs, r5)
                          | none => none
                      | '}' :: r4 => some ([(k, v)], r4)
                      | _ => none
              | _ => none
      | _ => none
  termination_by structural fuel _ => fuel

end

/-- `JSON.parse` (for the canonical form): the whole input must be consumed. -/
def parse (s : String) : Option JsonV :=
  match pVal (s.length + 1) s.data with
  | some (v, []) => some v
  | _ => none

/-! ## JavaScript identifiers

In `fs-repository.js` the identifier reaching `insert` is either a number
(`create` passes `++idCursor`, possibly `NaN`) or a string (`update` passes
the HTTP path parameter).  It is used both as an object key — JavaScript
coerces it to a string — and as the stored `_id` value. -/

/-- A JavaScript value used as a data identifier. -/
inductive JsId where
  | num (n : Int)
  | str (s : String)
  | nan
deriving DecidableEq

/-- The object key the identifier coerces to (`dataset[id]`): the decimal
string for a number, the string itself, `"NaN"` for `NaN`. -/
def JsId.key : JsId → String
  | .num n => String.mk (intify n)
  | .str s => s
  | .nan => "NaN"

/-- The identifier stored inside the record (`data[idField] = id`).  `NaN`
has no JSON image and serializes as `null`; no proved run produces it. -/
def JsId.val : JsId → JsonV
  | .num n => .num n
  | .str s => .str s
  | .nan => .null

/-- The identifier produced by the cursor arithmetic: an integer, or `NaN`
(`none`) when `parseInt` failed. -/
def numId : Option Int → JsId
  | some n => .num n
  | none => .nan

/-- JavaScript `++`: `NaN` stays `NaN`. -/
def jsSucc (i : Option Int) : Option Int := i.map (· + 1)

/-- JavaScript `parseInt` as the cursor computation uses it: an optional
sign, then the leading digit run; no digits give `NaN` (`none`). -/
def jsParseInt (s : String) : Option Int :=
  match s.data with
  | '-' :: cs =>
      match digSpan cs with
      | ([], _) => none
      | (ds, _) => some (-(digsVal ds : Int))
  | '+' :: cs =>
      match digSpan cs with
      | ([], _) => none
      | (ds, _) => some ((digsVal ds : Int))
  | cs =>
      match digSpan cs with
      | ([], _) => none
      | (ds, _) => some ((digsVal ds : Int))

/-- JavaScript string `<`: lexicographic on UTF-16 code units (code points
suffice for the keys at hand). -/
def jsStrLt : List Char → List Char → Bool
  | [], [] => false
  | [], _ :: _ => true
  | _ :: _, [] => false
  | a :: as, b :: bs =>
      if a.toNat < b.toNat then true
      else if b.toNat < a.toNat then false
      else jsStrLt as bs

/-- The `reduce` of `create` (fs-repository lines 95–102) and `init`
(fs-data-archive lines 62–69): the greatest key under JavaScript's `>`,
which compares *strings* lexicographically, starting from `"0"`. -/
def jsMaxKey (keys : List String) : String :=
  keys.foldl (fun acc cur => if jsStrLt acc.data cur.data then cur else acc) "0"

/-- Keys of a dataset object (`Object.keys`). -/
def objKeys (v : JsonV) : List String := v.fieldsOf.map Prod.fst

/-- Values of a dataset object (`Object.values`). -/
def objValues (v : JsonV) : List JsonV := v.fieldsOf.map Prod.snd

/-! ## The file-backed namespace store: `src/src/repository/fs-repository.js`

Every operation re-loads the namespace file (`getDataset`), works on the
parsed object, and persists by rewriting the whole file.  The file system is
a mapping from namespace to file content; whether a write succeeds is the
environment's choice, passed as `saveOk` (on failure the file is unchanged
and the callback receives the error). -/

namespace FsRepo

/-- `idField` (fs-repository line 22). -/
def idField : String := "_id"

/-- The local file system: file content per namespace (`<ns>.json`). -/
abbrev FileSys := List (String × String)

/-- `loadData` (lines 32–55): no file resolves the empty dataset; a file
that parses resolves its value; a parse failure rejects.  (An OS-level read
error also rejects in the source; the model folds both into `.error`.) -/
def loadData (fsys : FileSys) (ns : String) : Except Unit JsonV :=
  match keyGet fsys ns with
  | none => .ok (.obj [])
  | some content =>
      match parse content with
      | some v => .ok v
      | none => .error ()

/-- What `getDataset` (lines 62–71) delivers to its callback. -/
inductive GetDataset where
  | ok (dataset : JsonV)
  | crash
deriving DecidableEq

/-- `getDataset` (lines 62–71).  On a load failure the catch block logs and
then calls `callback(dataset)` — but `dataset` is a `let` binding scoped to
the `try` block, so that line raises a ReferenceError: the callback is never
invoked and the operation dies (`crash`).  No branch supplies an empty
dataset. -/
def getDataset (fsys : FileSys) (ns : String) : GetDataset :=
  match loadData fsys ns with
  | .ok d => .ok d
  | .error _ => .crash

/-- `insert` (lines 133–141): `created` is whether no record owns the key
yet; the caller's `data` object gains `_id` (`data[idField] = id`); the
dataset maps the key to that same object.  Returns (updated dataset,
mutated data object, created flag). -/
def insert (dataset : JsonV) (id : JsId) (data : JsonV) : JsonV × JsonV × Bool :=
  let created := (keyGet dataset.fieldsOf id.key).isNone
  let data' := JsonV.obj (keySet data.fieldsOf idField id.val)
  (.obj (keySet dataset.fieldsOf id.key data'), data', created)

/-- `save` (lines 150–187): serialize the whole dataset and rewrite the
namespace file; `saveOk` is whether `fs.writeFile` succeeds. -/
def save (fsys : FileSys) (ns : String) (dataset : JsonV) (saveOk : Bool) :
    FileSys × Option Unit :=
  if saveOk then (keySet fsys ns (stringify dataset), none) else (fsys, some ())

/-- The in-memory half of `create` (lines 93–107): cursor from the string-maximal
key, `++`, insert.  Returns the issued identifier and the updated dataset. -/
def createStage (dataset : JsonV) (data : JsonV) : Option Int × JsonV :=
  let idCursor := jsSucc (jsParseInt (jsMaxKey (objKeys dataset)))
  (idCursor, (insert dataset (numId idCursor) data).1)

/-- `create` (lines 93–107): load, allocate the identifier, insert, persist.
`none` models the crash of `getDataset`; otherwise the callback receives
`(saveErr, idCursor)` and the file system is as `save` left it. -/
def create (fsys : FileSys) (ns : String) (data : JsonV) (saveOk : Bool) :
    Option (FileSys × Option Int × Option Unit) :=
  match getDataset fsys ns with
  | .crash => none
  | .ok dataset =>
      let (id, dataset') := createStage dataset data
      let (fsys', err) := save fsys ns dataset' saveOk
      some (fsys', id, err)

/-- `update` (lines 118–122): load, insert under the caller-supplied string
identifier, persist; the callback receives `(saveErr, created)`. -/
def update (fsys : FileSys) (ns : String) (id : String) (data : JsonV)
    (saveOk : Bool) : Option (FileSys × Bool × Option Unit) :=
  match getDataset fsys ns with
  | .crash => none
  | .ok dataset =>
      let (dataset', _, created) := insert dataset (.str id) data
      let (fsys', err) := save fsys ns dataset' saveOk
      some (fsys', created, err)

/-- `remove` (lines 196–211): if the key is absent, report `false` with no
write; otherwise drop it and persist, reporting `(err, !err)`.  (The
function also caches `dataset.dataId` — the literal key — but never uses
it: this variant has no rollback.)  The result is
(file system, error, deleted flag). -/
def remove (fsys : FileSys) (ns : String) (dataId : String) (saveOk : Bool) :
    Option (FileSys × Option Unit × Bool) :=
  match getDataset fsys ns with
  | .crash => none
  | .ok dataset =>
      if (keyGet dataset.fieldsOf dataId).isSome then
        let dataset' := JsonV.obj (keyDel dataset.fieldsOf dataId)
        let (fsys', err) := save fsys ns dataset' saveOk
        some (fsys', err, err.isNone)
      else some (fsys, none, false)

/-- `list` (lines 80–82), exported as `read`: the dataset's values. -/
def list (fsys : FileSys) (ns : String) : Option (List JsonV) :=
  match getDataset fsys ns with
  | .ok dataset => some (objValues dataset)
  | .crash => none

end FsRepo

/-! ## The class-based file archive: `src/fs-data-archive.js`

The archive keeps one long-lived in-memory dataset (`this.dataset`).  Its
`delete` method (lines 215–243) is the rollback path cited by the spec.  A
property of a live JavaScript object can hold `undefined`, so the in-memory
dataset maps keys to `Option JsonV` with `none` playing `undefined`. -/

namespace FsArchive

/-- Reading a property of the in-memory dataset: an absent key reads as
`undefined` (`none`). -/
def propGet (dataset : List (String × Option JsonV)) (k : String) : Option JsonV :=
  match keyGet dataset k with
  | some jv => jv
  | none => none

/-- `delete` (lines 215–243), on an archive whose initial load has
completed (`isReady`; an archive still loading routes the callback an error
and touches nothing).  If the key is present the method caches
`this.dataset.dataId` — the property literally named `"dataId"`, not the
dynamic identifier, so generally `undefined` — removes the record, and
saves; if the save fails it writes the cached value back under the
identifier and reports the error with `deleted = false`.  Result:
(in-memory dataset, error, `status.deleted`). -/
def deleteOp (dataset : List (String × Option JsonV)) (dataId : String)
    (saveOk : Bool) : List (String × Option JsonV) × Option Unit × Bool :=
  if (keyGet dataset dataId).isSome then
    let data := propGet dataset "dataId"
    let ds1 := keyDel dataset dataId
    if saveOk then (ds1, none, true)
    else (keySet ds1 dataId data, some (), false)
  else (dataset, none, false)

end FsArchive

/-! ## The database-backed store: `src/src/repository/mongo-repository.js`

Each operation runs through `perform`: open a client, run one action against
the namespace's collection, close the client, then call the callback once
with `(error, result)`.  The collection itself is modelled as a list of
documents keyed by their `_id` (unique in MongoDB), with `updateOne` /
`deleteOne` behaving as MongoDB documents them — the database is the
external collaborator the repository delegates storage to. -/

namespace MongoRepo

/-- The error the operation wrappers construct on failure: `new Error` with
a message naming the collection and the underlying reason (source lines
54–60, 79–85, 112–118, 138–144). -/
structure OpError where
  collection : String
  reason : String
deriving DecidableEq

/-- A collection: documents as (identifier, fields). -/
abbrev MDb := List (String × List (String × JsonV))

/-- What one call to `perform` does: every callback invocation it makes,
whether the client was closed, and whether an exception escaped. -/
structure PerformOut where
  callbacks : List (Option OpError × Option JsonV)
  closed : Bool
  crashed : Bool
deriving DecidableEq

/-- `perform` (lines 11–38).  With a connection, the operation's outcome is
passed to the callback (wrapped errors included) and the client is closed.
When `client.connect` fails, the catch block evaluates a template literal
that references `namespace` — an identifier bound nowhere in the module —
so the log statement raises a ReferenceError; the `finally` clause has
already closed the client, but `callback(error, result)` below is never
reached. -/
def perform (connectOk : Bool) (opResult : Except OpError JsonV) : PerformOut :=
  if connectOk then
    match opResult with
    | .ok r => ⟨[(none, some r)], true, false⟩
    | .error e => ⟨[(some e, none)], true, false⟩
  else ⟨[], true, true⟩

/-- `$set` application (MongoDB): each supplied field overwrites or extends
the document's fields; fields not mentioned stay. -/
def applySet (old data : List (String × JsonV)) : List (String × JsonV) :=
  data.foldl (fun acc kv => keySet acc kv.1 kv.2) old

/-- MongoDB `updateOne` with filter `{_id: id}`, update `{$set: data}`,
`upsert: true`, as documented: a matching document gets the `$set` fields
(`modifiedCount` is 1 only when that changed it); with no match the document
`{_id: id, ...data}` is inserted (`upsertedCount` 1, `modifiedCount` 0).
Result: (collection, modifiedCount, upsertedCount). -/
def updateOne (db : MDb) (id : String) (data : List (String × JsonV)) :
    MDb × Nat × Nat :=
  match keyGet db id with
  | some old =>
      let newDoc := applySet old data
      (keySet db id newDoc, if newDoc = old then 0 else 1, 0)
  | none => (db ++ [(id, data)], 0, 1)

/-- `update` (lines 101–123): `updateOne` as above, resolving
`item.modifiedCount === 0` as the `created` flag. -/
def update (db : MDb) (id : String) (data : List (String × JsonV)) :
    MDb × Bool :=
  let r := updateOne db id data
  (r.1, r.2.1 == 0)

/-- MongoDB `deleteOne` with filter `{_id: id}`: removes the matching
document if any; `deletedCount` is 1 exactly when one was removed. -/
def deleteOne (db : MDb) (id : String) : MDb × Nat :=
  if (keyGet db id).isSome then (keyDel db id, 1) else (db, 0)

/-- `remove` (lines 132–149): `deleteOne`, resolving
`result.deletedCount === 1`. -/
def remove (db : MDb) (id : String) : MDb × Bool :=
  let r := deleteOne db id
  (r.1, r.2 == 1)

end MongoRepo

/-! ## Derived definitions used by the claims -/

/-- Does the input *not* begin with a digit (so it cannot extend a numeral)? -/
def noDigHead : List Char → Bool
  | [] => true
  | c :: _ => !isDig c

/-- The record/key discipline `insert` maintains: every record's key is the
coercion of some identifier whose value sits in the record's `_id` field. -/
def IdInv (d : List (String × JsonV)) : Prop :=
  ∀ kv ∈ d, ∃ id : JsId,
    kv.1 = id.key ∧ keyGet kv.2.fieldsOf FsRepo.idField = some id.val

/-- `n` consecutive `create` calls on one namespace of an initially empty
store (every write succeeding), collecting the returned identifiers. -/
def createSeq : Nat → FsRepo.FileSys × List (Option Int)
  | 0 => ([], [])
  | n + 1 =>
      match FsRepo.create (createSeq n).1 "tasks" (.obj []) true with
      | some (fsys', id, _) => (fsys', (createSeq n).2 ++ [id])
      | none => createSeq n

/-- The same `create` sequence tracked at the dataset level (what the
namespace file holds between operations), avoiding the serialize/parse
round trip that `createSeq_spec` discharges once and for all. -/
def createSeqData : Nat → JsonV × List (Option Int)
  | 0 => (.obj [], [])
  | n + 1 =>
      ((FsRepo.createStage (createSeqData n).1 (.obj [])).2,
       (createSeqData n).2
         ++ [(FsRepo.createStage (createSeqData n).1 (.obj [])).1])

/-- The dataset ten consecutive creates leave behind. -/
def tenRecords : List (String × JsonV) :=
  [("1", .obj [("_id", .num 1)]), ("2", .obj [("_id", .num 2)]),
   ("3", .obj [("_id", .num 3)]), ("4", .obj [("_id", .num 4)]),
   ("5", .obj [("_id", .num 5)]), ("6", .obj [("_id", .num 6)]),
   ("7", .obj [("_id", .num 7)]), ("8", .obj [("_id", .num 8)]),
   ("9", .obj [("_id", .num 9)]), ("10", .obj [("_id", .num 10)])]

/-- Two `create` calls on the same namespace under the interleaving
load-A, load-B, write-A, write-B, starting from an empty store: each load
sees the state before either write (nothing in the source sequences them).
Returns (identifier A, identifier B, subsequent `read`). -/
def concurrentCreates (dataA dataB : JsonV) :
    Option Int × Option Int × Option (List JsonV) :=
  match FsRepo.getDataset [] "tasks" with
  | .crash => (none, none, none)
  | .ok d0 =>
      let (idA, dsA) := FsRepo.createStage d0 dataA
      let (idB, dsB) := FsRepo.createStage d0 dataB
      let f1 := (FsRepo.save [] "tasks" dsA true).1
      let f2 := (FsRepo.save f1 "tasks" dsB true).1
      (idA, idB, FsRepo.list f2 "tasks")

/-! ## Association-list lemmas -/

theorem keyGet_keySet_self {α : Type} (l : List (String × α)) (k : String) (v : α) :
    keyGet (keySet l k v) k = some v := by
  induction l with
  | nil => simp [keySet, keyGet]
  | cons hd tl ih =>
      obtain ⟨k', v'⟩ := hd
      by_cases h : k' = k
      · simp [keySet, keyGet, h]
      · simp [keySet, keyGet, h, ih]

theorem keyGet_keySet_other {α : Type} (l : List (String × α)) (k k' : String) (v : α)
    (h : k' ≠ k) : keyGet (keySet l k v) k' = keyGet l k' := by
  have hne : ¬(k = k') := fun e => h e.symm
  induction l with
  | nil => simp [keySet, keyGet, hne]
  | cons hd tl ih =>
      obtain ⟨k0, v0⟩ := hd
      by_cases h0 : k0 = k
      · subst h0
        simp [keySet, keyGet, hne]
      · simp only [keySet, if_neg h0, keyGet]
        by_cases h1 : k0 = k'
        · simp [h1]
        · simp [h1, ih]

/-- A member of an updated list is the new binding or an old one. -/
theorem mem_keySet {α : Type} (l : List (String × α)) (k : String) (v : α) :
    ∀ kv ∈ keySet l k v, kv = (k, v) ∨ kv ∈ l := by
  induction l with
  | nil => simp [keySet]
  | cons hd tl ih =>
      obtain ⟨k0, v0⟩ := hd
      by_cases h0 : k0 = k
      · subst h0
        intro kv hkv
        simp only [keySet, if_true, eq_self_iff_true, if_pos trivial, List.mem_cons] at hkv
        rcases hkv with h | h
        · exact Or.inl h
        · exact Or.inr (List.mem_cons_of_mem _ h)
      · intro kv hkv
        simp only [keySet, if_neg h0, List.mem_cons] at hkv
        rcases hkv with h | h
        · exact Or.inr (by simp [h])
        · rcases ih kv h with h' | h'
          · exact Or.inl h'
          · exact Or.inr (List.mem_cons_of_mem _ h')

/-- Removal only drops entries: members of `keyDel l k` come from `l`. -/
theorem mem_keyDel {α : Type} (l : List (String × α)) (k : String) :
    ∀ kv ∈ keyDel l k, kv ∈ l := by
  induction l with
  | nil => simp [keyDel]
  | cons hd tl ih =>
      obtain ⟨k0, v0⟩ := hd
      by_cases h0 : k0 = k
      · intro kv hkv
        simp only [keyDel, if_pos h0] at hkv
        exact List.mem_cons_of_mem _ hkv
      · intro kv hkv
        simp only [keyDel, if_neg h0, List.mem_cons] at hkv
        rcases hkv with h | h
        · simp [h]
        · exact List.mem_cons_of_mem _ (ih kv h)

/-- With distinct keys, everything surviving `keyDel l k` has a key other
than `k`. -/
theorem mem_keyDel_key_ne {α : Type} (l : List (String × α)) (k : String)
    (hn : NodupKeys l) : ∀ kv ∈ keyDel l k, kv.1 ≠ k := by
  induction l with
  | nil => simp [keyDel]
  | cons hd tl ih =>
      obtain ⟨k0, v0⟩ := hd
      simp only [NodupKeys, List.map_cons, List.nodup_cons] at hn
      by_cases h0 : k0 = k
      · subst h0
        intro kv hkv
        simp only [keyDel, if_pos rfl] at hkv
        intro hk
        exact hn.1 (List.mem_map.mpr ⟨kv, hkv, hk⟩)
      · intro kv hkv
        simp only [keyDel, if_neg h0, List.mem_cons] at hkv
        rcases hkv with h | h
        · simp [h, h0]
        · exact ih hn.2 kv h

theorem nodupKeys_keySet {α : Type} (l : List (String × α)) (k : String) (v : α)
    (hn : NodupKeys l) : NodupKeys (keySet l k v) := by
  induction l with
  | nil => simp [keySet, NodupKeys]
  | cons hd tl ih =>
      obtain ⟨k0, v0⟩ := hd
      simp only [NodupKeys, List.map_cons, List.nodup_cons] at hn
      by_cases h0 : k0 = k
      · subst h0
        simpa [keySet, NodupKeys] using hn
      · have htl := ih hn.2
        simp only [keySet, if_neg h0, NodupKeys, List.map_cons, List.nodup_cons]
        refine ⟨?_, htl⟩
        intro hmem
        rcases List.mem_map.mp hmem with ⟨kv, hkv, hfst⟩
        rcases mem_keySet tl k v kv hkv with h | h
        · exact h0 (by rw [← hfst, h])
        · exact hn.1 (List.mem_map.mpr ⟨kv, h, hfst⟩)

theorem nodupKeys_keyDel {α : Type} (l : List (String × α)) (k : String)
    (hn : NodupKeys l) : NodupKeys (keyDel l k) := by
  induction l with
  | nil => simp [keyDel, NodupKeys]
  | cons hd tl ih =>
      obtain ⟨k0, v0⟩ := hd
      simp only [NodupKeys, List.map_cons, List.nodup_cons] at hn
      by_cases h0 : k0 = k
      · simpa [keyDel, h0, NodupKeys] using hn.2
      · have htl := ih hn.2
        simp only [keyDel, if_neg h0, NodupKeys, List.map_cons, List.nodup_cons]
        refine ⟨?_, htl⟩
        intro hmem
        rcases List.mem_map.mp hmem with ⟨kv, hkv, hfst⟩
        exact hn.1 (List.mem_map.mpr ⟨kv, mem_keyDel tl k kv hkv, hfst⟩)

/-! ## The codec round trip

`parse (stringify v) = some v`, built up from digit, number, and string
inverse lemmas and a mutual induction over the value. -/


theorem digifyChar_isDig (d : Nat) (h : d < 10) : isDig (digifyChar d) = true := by
  interval_cases d <;> decide

theorem digifyChar_toNat (d : Nat) (h : d < 10) : (digifyChar d).toNat - 48 = d := by
  interval_cases d <;> decide

/-- `digifyAux` ignores the fuel once it covers `n`. -/
theorem digifyAux_fuel (n : Nat) : ∀ f g : Nat, n < f → n < g →
    digifyAux f n = digifyAux g n := by
  induction n using Nat.strong_induction_on with
  | _ n ih =>
      intro f g hf hg
      match f, g with
      | f' + 1, g' + 1 =>
          by_cases h10 : n < 10
          · simp [digifyAux, h10]
          · have hlt : n / 10 < n := Nat.div_lt_self (by omega) (by omega)
            simp only [digifyAux, if_neg h10]
            rw [ih (n / 10) hlt f' g' (by omega) (by omega)]

/-- The recurrence `digify` satisfies, with the fuel hidden. -/
theorem digify_unfold (n : Nat) :
    digify n = if n < 10 then [digifyChar n]
               else digify (n / 10) ++ [digifyChar (n % 10)] := by
  by_cases h10 : n < 10
  · show digifyAux (n + 1) n = _
    simp [digifyAux, h10]
  · have h1 : digify n = digifyAux n (n / 10) ++ [digifyChar (n % 10)] := by
      show digifyAux (n + 1) n = _
      simp [digifyAux, h10]
    rw [h1, if_neg h10,
      digifyAux_fuel (n / 10) n (n / 10 + 1) (by omega) (by omega)]
    rfl

theorem digify_ne_nil (n : Nat) : digify n ≠ [] := by
  rw [digify_unfold]
  by_cases h10 : n < 10 <;> simp [h10]

theorem digify_all_digits (n : Nat) : ∀ c ∈ digify n, isDig c = true := by
  induction n using Nat.strong_induction_on with
  | _ n ih =>
      rw [digify_unfold]
      by_cases h10 : n < 10
      · simpa [h10] using digifyChar_isDig n h10
      · have hlt : n / 10 < n := Nat.div_lt_self (by omega) (by omega)
        simp only [if_neg h10, List.mem_append, List.mem_singleton]
        intro c hc
        rcases hc with hc | hc
        · exact ih (n / 10) hlt c hc
        · rw [hc]; exact digifyChar_isDig _ (Nat.mod_lt _ (by omega))

theorem digify_head (n : Nat) :
    ∃ c t, digify n = c :: t ∧ isDig c = true := by
  match h : digify n with
  | [] => exact absurd h (digify_ne_nil n)
  | c :: t =>
      exact ⟨c, t, rfl, digify_all_digits n c (h ▸ List.mem_cons_self ..)⟩

theorem digsVal_digify (n : Nat) : digsVal (digify n) = n := by
  induction n using Nat.strong_induction_on with
  | _ n ih =>
      rw [digify_unfold]
      by_cases h10 : n < 10
      · simp only [if_pos h10, digsVal, List.foldl_cons, List.foldl_nil]
        rw [digifyChar_toNat n h10]
        omega
      · have hlt : n / 10 < n := Nat.div_lt_self (by omega) (by omega)
        simp only [if_neg h10, digsVal, List.foldl_append, List.foldl_cons,
          List.foldl_nil]
        have h1 := ih (n / 10) hlt
        simp only [digsVal] at h1
        rw [h1, digifyChar_toNat _ (Nat.mod_lt _ (by omega))]
        omega

theorem digSpan_stop (cs : List Char) (h : noDigHead cs = true) :
    digSpan cs = ([], cs) := by
  match cs with
  | [] => rfl
  | c :: t =>
      simp only [noDigHead, Bool.not_eq_true'] at h
      simp [digSpan, h]

theorem digSpan_run (ds : List Char) (rest : List Char)
    (hds : ∀ c ∈ ds, isDig c = true) (hrest : noDigHead rest = true) :
    digSpan (ds ++ rest) = (ds, rest) := by
  induction ds with
  | nil => simpa using digSpan_stop rest hrest
  | cons c t ih =>
      have hc : isDig c = true := hds c (by simp)
      have ht := ih (fun x hx => hds x (by simp [hx]))
      simp [digSpan, hc, ht]

/-- One unfolding of `pVal` at successor fuel and nonempty input
(definitional). -/
theorem pVal_step (fuel : Nat) (c : Char) (r : List Char) :
    pVal (fuel + 1) (c :: r) =
      (if isDig c then pNum false (c :: r)
       else if c = '-' then pNum true r
       else if c = '"' then
         match strBody [] r with
         | some (s, r') => some (.str s, r')
         | none => none
       else if c = '[' then
         match r with
         | [] => none
         | c2 :: r2 =>
             if c2 = ']' then some (.arr [], r2)
             else
               match pArr fuel (c2 :: r2) with
               | some (vs, r') => some (.arr vs, r')
               | none => none
       else if c = '{' then
         match r with
         | [] => none
         | c2 :: r2 =>
             if c2 = '}' then some (.obj [], r2)
             else
               match pObj fuel (c2 :: r2) with
               | some (fs, r') => some (.obj fs, r')
               | none => none
       else
         match c :: r with
         | 'n' :: 'u' :: 'l' :: 'l' :: r2 => some (.null, r2)
         | 't' :: 'r' :: 'u' :: 'e' :: r2 => some (.bool true, r2)
         | 'f' :: 'a' :: 'l' :: 's' :: 'e' :: r2 => some (.bool false, r2)
         | _ => none) := rfl

/-- Parsing a rendered number recovers it, whenever the remainder cannot
extend the numeral. -/
theorem pVal_num (i : Int) (fuel : Nat) (rest : List Char)
    (hr : noDigHead rest = true) :
    pVal (fuel + 1) (intify i ++ rest) = some (.num i, rest) := by
  by_cases hneg : i < 0
  · obtain ⟨c, t, hct, hc⟩ := digify_head i.natAbs
    have h1 : intify i ++ rest = '-' :: (digify i.natAbs ++ rest) := by
      simp [intify, hneg]
    have hspan : digSpan (digify i.natAbs ++ rest) = (digify i.natAbs, rest) :=
      digSpan_run _ _ (digify_all_digits _) hr
    rw [h1, pVal_step]
    rw [if_neg (by decide), if_pos rfl]
    rw [hct] at hspan ⊢
    rw [show (c :: t) ++ rest = c :: (t ++ rest) from rfl] at hspan ⊢
    simp only [pNum, hc, if_pos, hspan]
    have hv : digsVal (c :: t) = i.natAbs := by
      rw [← hct]; exact digsVal_digify _
    rw [hv]
    have hval : -((i.natAbs : Nat) : Int) = i := by omega
    exact congrArg (fun z => some (JsonV.num z, rest)) hval
  · obtain ⟨c, t, hct, hc⟩ := digify_head i.toNat
    have h1 : intify i ++ rest = c :: (t ++ rest) := by
      simp [intify, hneg, hct]
    have hspan : digSpan (digify i.toNat ++ rest) = (digify i.toNat, rest) :=
      digSpan_run _ _ (digify_all_digits _) hr
    rw [hct, show (c :: t) ++ rest = c :: (t ++ rest) from rfl] at hspan
    rw [h1, pVal_step, if_pos hc]
    simp only [pNum, hc, if_pos, hspan]
    have hv : digsVal (c :: t) = i.toNat := by
      rw [← hct]; exact digsVal_digify _
    rw [hv]
    have hval : ((i.toNat : Nat) : Int) = i := by omega
    exact congrArg (fun z => some (JsonV.num z, rest)) hval

/-- Undoing one escaped character. -/
theorem strBody_escChar (c : Char) (acc rest : List Char) :
    strBody acc (escChar c ++ rest) = strBody (c :: acc) rest := by
  by_cases h : c = '"' ∨ c = '\\'
  · simp only [escChar, if_pos h, List.cons_append, List.singleton_append]
    rfl
  · push_neg at h
    simp only [escChar, if_neg (not_or.mpr ⟨h.1, h.2⟩), List.singleton_append]
    rw [strBody.eq_def]
    simp [h.1, h.2]

/-- Parsing an escaped run stops exactly at the closing quote. -/
theorem strBody_run (cs : List Char) : ∀ (acc rest : List Char),
    strBody acc (cs.flatMap escChar ++ '"' :: rest)
      = some (String.mk (acc.reverse ++ cs), rest) := by
  induction cs with
  | nil =>
      intro acc rest
      simp [strBody]
  | cons c t ih =>
      intro acc rest
      rw [List.flatMap_cons, List.append_assoc, strBody_escChar, ih]
      simp

/-- Parsing a rendered string literal recovers the string. -/
theorem strBody_rendStr (s : String) (rest : List Char) :
    strBody [] (s.data.flatMap escChar ++ '"' :: rest) = some (s, rest) := by
  rw [strBody_run]
  rfl

/-- One unfolding of `pArr` at successor fuel (definitional). -/
theorem pArr_step (fuel : Nat) (cs : List Char) :
    pArr (fuel + 1) cs =
      (match pVal fuel cs with
       | none => none
       | some (v, r) =>
           match r with
           | ',' :: r' =>
               match pArr fuel r' with
               | some (vs, r'') => some (v :: vs, r'')
               | none => none
           | ']' :: r' => some ([v], r')
           | _ => none) := rfl

/-- One unfolding of `pObj` at successor fuel (definitional). -/
theorem pObj_step (fuel : Nat) (cs : List Char) :
    pObj (fuel + 1) cs =
      (match cs with
       | '"' :: r =>
           match strBody [] r with
           | none => none
           | some (k, r1) =>
               match r1 with
               | ':' :: r2 =>
                   match pVal fuel r2 with
                   | none => none
                   | some (v, r3) =>
                       match r3 with
                       | ',' :: r4 =>
                           match pObj fuel r4 with
                           | some (fs, r5) => some ((k, v) :: fs, r5)
                           | none => none
                       | '}' :: r4 => some ([(k, v)], r4)
                       | _ => none
               | _ => none
       | _ => none) := rfl

theorem isDig_ne (c ch : Char) (hc : isDig c = true) (hch : isDig ch = false) :
    c ≠ ch := by
  intro e
  rw [e, hch] at hc
  exact Bool.noConfusion hc

/-- Every rendered value starts with a character that closes neither an
array nor an object. -/
theorem rend_head (v : JsonV) :
    ∃ c t, rend v = c :: t ∧ c ≠ ']' ∧ c ≠ '}' := by
  cases v with
  | null => exact ⟨'n', ['u', 'l', 'l'], rfl, by decide, by decide⟩
  | bool b =>
      cases b with
      | false => exact ⟨'f', ['a', 'l', 's', 'e'], rfl, by decide, by decide⟩
      | true => exact ⟨'t', ['r', 'u', 'e'], rfl, by decide, by decide⟩
  | num n =>
      by_cases hneg : n < 0
      · exact ⟨'-', digify n.natAbs, by simp [rend, intify, hneg], by decide, by decide⟩
      · obtain ⟨c, t, hct, hc⟩ := digify_head n.toNat
        exact ⟨c, t, by simp [rend, intify, hneg, hct],
          isDig_ne c ']' hc (by decide), isDig_ne c '}' hc (by decide)⟩
  | str s =>
      exact ⟨'"', s.data.flatMap escChar ++ ['"'], rfl, by decide, by decide⟩
  | arr items => exact ⟨'[', rendArr items ++ [']'], rfl, by decide, by decide⟩
  | obj fields => exact ⟨'{', rendObj fields ++ ['}'], rfl, by decide, by decide⟩

/-- The array branch of `pVal`, reduced past a non-`]` head (the head of a
rendered element). -/
theorem pVal_arr_branch (fuel : Nat) (c2 : Char) (r2 : List Char) (h : c2 ≠ ']') :
    pVal (fuel + 1) ('[' :: c2 :: r2) =
      (match pArr fuel (c2 :: r2) with
       | some (vs, r') => some (.arr vs, r')
       | none => none) := by
  have h0 : pVal (fuel + 1) ('[' :: c2 :: r2) =
      (if c2 = ']' then some (.arr [], r2)
       else
         match pArr fuel (c2 :: r2) with
         | some (vs, r') => some (.arr vs, r')
         | none => none) := rfl
  rw [h0, if_neg h]

/-- The object branch of `pVal`, reduced past a non-`}` head (the `"` of a
rendered key). -/
theorem pVal_obj_branch (fuel : Nat) (c2 : Char) (r2 : List Char) (h : c2 ≠ '}') :
    pVal (fuel + 1) ('{' :: c2 :: r2) =
      (match pObj fuel (c2 :: r2) with
       | some (fs, r') => some (.obj fs, r')
       | none => none) := by
  have h0 : pVal (fuel + 1) ('{' :: c2 :: r2) =
      (if c2 = '}' then some (.obj [], r2)
       else
         match pObj fuel (c2 :: r2) with
         | some (fs, r') => some (.obj fs, r')
         | none => none) := rfl
  rw [h0, if_neg h]

/-- One unfolding of `pObj` at a key head (definitional). -/
theorem pObj_key_step (fuel : Nat) (body : List Char) :
    pObj (fuel + 1) ('"' :: body) =
      (match strBody [] body with
       | none => none
       | some (k, r1) =>
           match r1 with
           | ':' :: r2 =>
               match pVal fuel r2 with
               | none => none
               | some (v, r3) =>
                   match r3 with
                   | ',' :: r4 =>
                       match pObj fuel r4 with
                       | some (fs, r5) => some ((k, v) :: fs, r5)
                       | none => none
                   | '}' :: r4 => some ([(k, v)], r4)
                   | _ => none
           | _ => none) := rfl

mutual

/-- Parsing a rendered value recovers it (enough fuel, no digit follows). -/
theorem rt_val : ∀ (v : JsonV) (fuel : Nat) (rest : List Char),
    (rend v).length < fuel → noDigHead rest = true →
    pVal fuel (rend v ++ rest) = some (v, rest)
  | .null, fuel, rest, hf, _ => by
      cases fuel with
      | zero => exact absurd hf (Nat.not_lt_zero _)
      | succ f =>
          rw [show rend .null ++ rest = 'n' :: 'u' :: 'l' :: 'l' :: rest from rfl,
            pVal_step]
          rfl
  | .bool true, fuel, rest, hf, _ => by
      cases fuel with
      | zero => exact absurd hf (Nat.not_lt_zero _)
      | succ f =>
          rw [show rend (.bool true) ++ rest = 't' :: 'r' :: 'u' :: 'e' :: rest from rfl,
            pVal_step]
          rfl
  | .bool false, fuel, rest, hf, _ => by
      cases fuel with
      | zero => exact absurd hf (Nat.not_lt_zero _)
      | succ f =>
          rw [show rend (.bool false) ++ rest
              = 'f' :: 'a' :: 'l' :: 's' :: 'e' :: rest from rfl, pVal_step]
          rfl
  | .num n, fuel, rest, hf, hr => by
      cases fuel with
      | zero => exact absurd hf (Nat.not_lt_zero _)
      | succ f => exact pVal_num n f rest hr
  | .str s, fuel, rest, hf, _ => by
      cases fuel with
      | zero => exact absurd hf (Nat.not_lt_zero _)
      | succ f =>
          rw [show rend (.str s) ++ rest
              = '"' :: (s.data.flatMap escChar ++ '"' :: rest) from by
                simp [rend, rendStr], pVal_step]
          rw [if_neg (by decide), if_neg (by decide), if_pos rfl,
            strBody_rendStr s rest]
  | .arr [], fuel, rest, hf, _ => by
      cases fuel with
      | zero => exact absurd hf (Nat.not_lt_zero _)
      | succ f =>
          rw [show rend (.arr []) ++ rest = '[' :: ']' :: rest from rfl, pVal_step]
          rfl
  | .arr (e :: es), fuel, rest, hf, _ => by
      cases fuel with
      | zero => exact absurd hf (Nat.not_lt_zero _)
      | succ f =>
          obtain ⟨c, t, hct, hbr, _⟩ := rend_head e
          have harg : rend (.arr (e :: es)) ++ rest
              = '[' :: (c :: (t ++ (rendArrTail es ++ ']' :: rest))) := by
            simp [rend, rendArr, hct]
          have hback : c :: (t ++ (rendArrTail es ++ ']' :: rest))
              = rendArr (e :: es) ++ ']' :: rest := by
            simp [rendArr, hct]
          have hfa : (rendArr (e :: es)).length + 1 < f := by
            simp only [rend, List.length_cons, List.length_append,
              List.length_singleton] at hf
            omega
          rw [harg, pVal_arr_branch f c _ hbr, hback, rt_arr e es f rest hfa]
  | .obj [], fuel, rest, hf, _ => by
      cases fuel with
      | zero => exact absurd hf (Nat.not_lt_zero _)
      | succ f =>
          rw [show rend (.obj []) ++ rest = '{' :: '}' :: rest from rfl, pVal_step]
          rfl
  | .obj ((k, w) :: fs), fuel, rest, hf, _ => by
      cases fuel with
      | zero => exact absurd hf (Nat.not_lt_zero _)
      | succ f =>
          have harg : rend (.obj ((k, w) :: fs)) ++ rest
              = '{' :: ('"' :: (k.data.flatMap escChar
                  ++ ('"' :: (':' :: (rend w ++ (rendObjTail fs ++ '}' :: rest)))))) := by
            simp [rend, rendObj, rendStr]
          have hback : ('"' : Char) :: (k.data.flatMap escChar
                  ++ ('"' :: (':' :: (rend w ++ (rendObjTail fs ++ '}' :: rest)))))
              = rendObj ((k, w) :: fs) ++ '}' :: rest := by
            simp [rendObj, rendStr]
          have hfo : (rendObj ((k, w) :: fs)).length + 1 < f := by
            simp only [rend, List.length_cons, List.length_append,
              List.length_singleton] at hf
            omega
          rw [harg, pVal_obj_branch f '"' _ (by decide), hback,
            rt_obj (k, w) fs f rest hfo]
  termination_by v _ _ _ _ => sizeOf v
  decreasing_by all_goals simp_wf; all_goals simp_arith

/-- Parsing a rendered nonempty element list through `]` recovers it. -/
theorem rt_arr : ∀ (v : JsonV) (vs : List JsonV) (fuel : Nat) (rest : List Char),
    (rendArr (v :: vs)).length + 1 < fuel →
    pArr fuel (rendArr (v :: vs) ++ ']' :: rest) = some (v :: vs, rest)
  | v, [], fuel, rest, hf => by
      cases fuel with
      | zero => exact absurd hf (Nat.not_lt_zero _)
      | succ f =>
          have h1 : rendArr (v :: []) ++ ']' :: rest = rend v ++ ']' :: rest := by
            simp [rendArr, rendArrTail]
          have hfv : (rend v).length < f := by
            simp only [rendArr, rendArrTail, List.append_nil, List.length_append,
              List.length_nil] at hf
            omega
          rw [h1, pArr_step, rt_val v f (']' :: rest) hfv rfl]
          rfl
  | v, x :: xs, fuel, rest, hf => by
      cases fuel with
      | zero => exact absurd hf (Nat.not_lt_zero _)
      | succ f =>
          have harg : rendArr (v :: x :: xs) ++ ']' :: rest
              = rend v ++ (',' :: (rendArr (x :: xs) ++ ']' :: rest)) := by
            simp [rendArr, rendArrTail]
          have hfv : (rend v).length < f := by
            simp only [rendArr, rendArrTail, List.length_append,
              List.length_cons] at hf
            omega
          have hfx : (rendArr (x :: xs)).length + 1 < f := by
            simp only [rendArr, rendArrTail, List.length_append,
              List.length_cons] at hf ⊢
            omega
          rw [harg, pArr_step,
            rt_val v f (',' :: (rendArr (x :: xs) ++ ']' :: rest)) hfv rfl]
          show (match pArr f (rendArr (x :: xs) ++ ']' :: rest) with
                | some (vs', r'') => some (v :: vs', r'')
                | none => none) = some (v :: x :: xs, rest)
          rw [rt_arr x xs f rest hfx]
  termination_by v vs _ _ _ => sizeOf v + sizeOf vs
  decreasing_by all_goals simp_wf; all_goals simp_arith

/-- Parsing a rendered nonempty member list through `}` recovers it. -/
theorem rt_obj : ∀ (kv : String × JsonV) (fs : List (String × JsonV))
    (fuel : Nat) (rest : List Char),
    (rendObj (kv :: fs)).length + 1 < fuel →
    pObj fuel (rendObj (kv :: fs) ++ '}' :: rest) = some (kv :: fs, rest)
  | (k, w), [], fuel, rest, hf => by
      cases fuel with
      | zero => exact absurd hf (Nat.not_lt_zero _)
      | succ f =>
          have harg : rendObj ((k, w) :: []) ++ '}' :: rest
              = '"' :: (k.data.flatMap escChar
                  ++ '"' :: (':' :: (rend w ++ '}' :: rest))) := by
            simp [rendObj, rendObjTail, rendStr]
          have hfv : (rend w).length < f := by
            simp only [rendObj, rendObjTail, rendStr, List.append_nil,
              List.length_append, List.length_cons] at hf
            omega
          rw [harg, pObj_key_step,
            strBody_rendStr k (':' :: (rend w ++ '}' :: rest))]
          show (match pVal f (rend w ++ '}' :: rest) with
                | none => none
                | some (v, r3) =>
                    match r3 with
                    | ',' :: r4 =>
                        match pObj f r4 with
                        | some (fs', r5) => some ((k, v) :: fs', r5)
                        | none => none
                    | '}' :: r4 => some ([(k, v)], r4)
                    | _ => none) = some ([(k, w)], rest)
          rw [rt_val w f ('}' :: rest) hfv rfl]
          rfl
  | (k, w), (k2, w2) :: fs2, fuel, rest, hf => by
      cases fuel with
      | zero => exact absurd hf (Nat.not_lt_zero _)
      | succ f =>
          have harg : rendObj ((k, w) :: (k2, w2) :: fs2) ++ '}' :: rest
              = '"' :: (k.data.flatMap escChar
                  ++ '"' :: (':' :: (rend w
                      ++ ',' :: (rendObj ((k2, w2) :: fs2) ++ '}' :: rest)))) := by
            simp [rendObj, rendObjTail, rendStr]
          have hfv : (rend w).length < f := by
            simp only [rendObj, rendObjTail, rendStr, List.length_append,
              List.length_cons] at hf
            omega
          have hfo : (rendObj ((k2, w2) :: fs2)).length + 1 < f := by
            simp only [rendObj, rendObjTail, rendStr, List.length_append,
              List.length_cons] at hf ⊢
            omega
          rw [harg, pObj_key_step,
            strBody_rendStr k
              (':' :: (rend w ++ ',' :: (rendObj ((k2, w2) :: fs2) ++ '}' :: rest)))]
          show (match pVal f (rend w ++ ',' :: (rendObj ((k2, w2) :: fs2) ++ '}' :: rest)) with
                | none => none
                | some (v, r3) =>
                    match r3 with
                    | ',' :: r4 =>
                        match pObj f r4 with
                        | some (fs', r5) => some ((k, v) :: fs', r5)
                        | none => none
                    | '}' :: r4 => some ([(k, v)], r4)
                    | _ => none) = some ((k, w) :: (k2, w2) :: fs2, rest)
          rw [rt_val w f (',' :: (rendObj ((k2, w2) :: fs2) ++ '}' :: rest)) hfv rfl]
          show (match pObj f (rendObj ((k2, w2) :: fs2) ++ '}' :: rest) with
                | some (fs', r5) => some ((k, w) :: fs', r5)
                | none => none) = some ((k, w) :: (k2, w2) :: fs2, rest)
          rw [rt_obj (k2, w2) fs2 f rest hfo]
  termination_by kv fs _ _ _ => sizeOf kv + sizeOf fs
  decreasing_by all_goals simp_wf; all_goals simp_arith

end

/-- **Codec round trip**: parsing a rendered value recovers it exactly. -/
theorem parse_stringify (v : JsonV) : parse (stringify v) = some v := by
  have h := rt_val v ((rend v).length + 1) [] (by omega) rfl
  rw [List.append_nil] at h
  show (match pVal ((stringify v).length + 1) (stringify v).data with
        | some (v', []) => some v'
        | _ => none) = some v
  have hdata : (stringify v).data = rend v := rfl
  have hlen : (stringify v).length = (rend v).length := rfl
  rw [hdata, hlen, h]

/-- Reloading a namespace right after `save` succeeds and yields the saved
value. -/
theorem loadData_after_save (fsys : FsRepo.FileSys) (ns : String) (d : JsonV) :
    FsRepo.loadData (keySet fsys ns (stringify d)) ns = .ok d := by
  simp [FsRepo.loadData, keyGet_keySet_self, parse_stringify]

/-- Identifiers with the same stored `_id` value coerce to the same key. -/
theorem JsId.val_inj (a b : JsId) (h : a.val = b.val) : a.key = b.key := by
  cases a <;> cases b <;> simp_all [JsId.val, JsId.key]


/-! ## The claims -/

/-- C8: for every dataset, persisting it to a namespace's backing file
(`save` with a successful write) and then loading that namespace
(`loadData`) yields exactly the dataset that was saved: save followed by
load is the identity on (well-formed) data. -/
theorem save_then_load_id (fsys : FsRepo.FileSys) (ns : String)
    (d : List (String × JsonV)) :
    FsRepo.loadData (FsRepo.save fsys ns (.obj d) true).1 ns
      = .ok (.obj d) := by
  simp only [FsRepo.save, if_pos trivial]
  exact loadData_after_save fsys ns (.obj d)

/-- C9: `read` (the exported `list`) returns all records currently stored in
the namespace — the values of the loaded dataset — and an absent namespace
(no backing file) yields the empty sequence, not an error. -/
theorem read_lists_all_records :
    (∀ (fsys : FsRepo.FileSys) (ns : String), keyGet fsys ns = none →
        FsRepo.list fsys ns = some []) ∧
    (∀ (fsys : FsRepo.FileSys) (ns : String) (d : JsonV),
        FsRepo.loadData fsys ns = .ok d →
        FsRepo.list fsys ns = some (objValues d)) := by
  constructor
  · intro fsys ns habs
    simp [FsRepo.list, FsRepo.getDataset, FsRepo.loadData, habs, objValues,
      JsonV.fieldsOf]
  · intro fsys ns d hload
    simp [FsRepo.list, FsRepo.getDataset, hload]

/-- Closed instances of `read_lists_all_records`: a never-created namespace
reads as `[]`, and a saved one-record namespace reads as that record. -/
theorem read_lists_all_records_witness :
    FsRepo.list [] "orders" = some [] ∧
    FsRepo.list [("orders", stringify (.obj [("1", .num 1)]))] "orders"
      = some [.num 1] := by
  constructor
  · exact read_lists_all_records.1 [] "orders" rfl
  · exact read_lists_all_records.2 [("orders", stringify (.obj [("1", .num 1)]))]
      "orders" (.obj [("1", .num 1)]) (loadData_after_save [] "orders" _)

/-- C5 (the code, not the claim): on a namespace whose backing file exists
but is not valid JSON, `getDataset` crashes — its catch block logs
"Loading with an empty dataset!" and then evaluates `dataset`, a name bound
only inside the `try` block, raising a ReferenceError — so no file-store
operation proceeds, with an empty dataset or otherwise. -/
theorem malformed_file_crashes_operations :
    FsRepo.getDataset [("tasks", String.mk ['{'])] "tasks"
      = FsRepo.GetDataset.crash ∧
    FsRepo.list [("tasks", String.mk ['{'])] "tasks" = none ∧
    FsRepo.create [("tasks", String.mk ['{'])] "tasks" (.obj []) true = none ∧
    FsRepo.update [("tasks", String.mk ['{'])] "tasks" "1" (.obj []) true = none ∧
    FsRepo.remove [("tasks", String.mk ['{'])] "tasks" "1" true = none := by
  refine ⟨rfl, rfl, rfl, rfl, rfl⟩

/-- C6 (the code, not the claim): when the connection fails, `perform`'s
catch block references the unbound identifier `namespace` in its log
template, so a ReferenceError escapes before `callback(error, result)`: the
callback is invoked zero times — not exactly once with a wrapped error —
although the `finally` clause does close the client. -/
theorem connect_failure_never_calls_back :
    MongoRepo.perform false (.ok .null)
      = ⟨[], true, true⟩ ∧
    (MongoRepo.perform false (.ok .null)).callbacks.length = 0 ∧
    (MongoRepo.perform false
        (.error ⟨"tasks", "boom"⟩)).callbacks.length = 0 ∧
    (MongoRepo.perform false (.ok .null)).closed = true := by
  refine ⟨rfl, rfl, rfl, rfl⟩

/-- C4 (the code, not the claim): the archive's `delete` caches
`this.dataset.dataId` — the literal property name — so on a failed persist
it "restores" `undefined` under the identifier: the record's original
content is gone and the in-memory state does not equal the pre-delete
state. -/
theorem delete_rollback_restores_undefined :
    FsArchive.deleteOp
        [("1", some (.obj [("item", .str "pen"), ("id", .num 1)]))] "1" false
      = ([("1", none)], some (), false) ∧
    decide (([("1", (none : Option JsonV))])
        = [("1", some (JsonV.obj [("item", .str "pen"), ("id", .num 1)]))])
      = false := by
  refine ⟨rfl, rfl⟩



/-- `create` on a loadable namespace: allocate via `createStage`, persist,
report the identifier with no error. -/
theorem create_ok (fsys : FsRepo.FileSys) (ns : String) (data d0 : JsonV)
    (h : FsRepo.getDataset fsys ns = .ok d0) :
    FsRepo.create fsys ns data true
      = some (keySet fsys ns (stringify (FsRepo.createStage d0 data).2),
              (FsRepo.createStage d0 data).1, none) := by
  simp [FsRepo.create, h, FsRepo.save]

/-- The pipeline trace and the dataset trace agree: after `n` creates the
namespace file loads back to the dataset-level state, and the issued
identifiers coincide. -/
theorem createSeq_spec : ∀ n : Nat,
    FsRepo.getDataset (createSeq n).1 "tasks" = .ok (createSeqData n).1 ∧
    (createSeq n).2 = (createSeqData n).2
  | 0 => ⟨rfl, rfl⟩
  | n + 1 => by
      obtain ⟨hget, hids⟩ := createSeq_spec n
      have hcr := create_ok (createSeq n).1 "tasks" (.obj [])
        (createSeqData n).1 hget
      constructor
      · simp only [createSeq, hcr]
        simp only [createSeqData, FsRepo.getDataset, loadData_after_save]
      · simp only [createSeq, hcr, createSeqData, hids]


/-- C1 (the code, not the claim): the cursor `reduce` compares keys as
strings, so over the keys `"1" … "10"` it picks `"9"`, `parseInt` gives 9 —
not the numeric maximum 10 — and the eleventh `create` returns 10 again,
colliding with the identifier already issued by the tenth. -/
theorem eleventh_create_reissues_ten :
    (createSeq 11).2
      = [some 1, some 2, some 3, some 4, some 5, some 6, some 7, some 8,
         some 9, some 10, some 10] ∧
    FsRepo.getDataset (createSeq 10).1 "tasks" = .ok (.obj tenRecords) ∧
    jsParseInt (jsMaxKey (objKeys (.obj tenRecords))) = some 9 ∧
    (objKeys (.obj tenRecords)).contains "10" = true ∧
    jsParseInt "10" = some 10 := by
  refine ⟨?_, ?_, by decide, by decide, by decide⟩
  · rw [(createSeq_spec 11).2]
    decide
  · rw [(createSeq_spec 10).1]
    exact congrArg FsRepo.GetDataset.ok
      (show (createSeqData 10).1 = JsonV.obj tenRecords by decide)


/-- C3 (the code, not the claim): under the unserialized interleaving both
creates issue identifier 1 and the second whole-file rewrite erases the
first record — the subsequent read holds only B's record. -/
theorem concurrent_creates_collide :
    concurrentCreates (.obj [("item", .str "pen")]) (.obj [("item", .str "ink")])
      = (some 1, some 1,
         some [.obj [("item", .str "ink"), ("_id", .num 1)]]) ∧
    ((some [JsonV.obj [("item", .str "ink"), ("_id", .num 1)]]).map
        (List.contains · (JsonV.obj [("item", .str "pen"), ("_id", .num 1)])))
      = some false := by
  refine ⟨rfl, rfl⟩

/-- C2 as amended.  File store: `insert` reports `created` exactly when no
record owns the key, and stores `data` with only the `_id` field set —
prior content fully replaced.  Document store: `update` performs a
`$set`-upsert, so an existing document keeps the fields `data` does not
mention (field merging), and `created` is `modifiedCount === 0` — true
exactly when the `$set` left the matched document unchanged, or inserted. -/
theorem upsert_semantics :
    (∀ (dataset : JsonV) (id : JsId) (data : JsonV),
        (FsRepo.insert dataset id data).2.2
            = (keyGet dataset.fieldsOf id.key).isNone ∧
        keyGet (FsRepo.insert dataset id data).1.fieldsOf id.key
            = some (.obj (keySet data.fieldsOf FsRepo.idField id.val))) ∧
    (∀ (db : MongoRepo.MDb) (id : String) (data old : List (String × JsonV)),
        keyGet db id = some old →
        MongoRepo.update db id data
          = (keySet db id (MongoRepo.applySet old data),
             decide (MongoRepo.applySet old data = old))) ∧
    (∀ (db : MongoRepo.MDb) (id : String) (data : List (String × JsonV)),
        keyGet db id = none →
        MongoRepo.update db id data = (db ++ [(id, data)], true)) := by
  refine ⟨?_, ?_, ?_⟩
  · intro dataset id data
    exact ⟨rfl, keyGet_keySet_self ..⟩
  · intro db id data old h
    simp only [MongoRepo.update, MongoRepo.updateOne, h]
    by_cases he : MongoRepo.applySet old data = old
    · simp [he]
    · simp [he]
  · intro db id data h
    simp [MongoRepo.update, MongoRepo.updateOne, h]

/-- Closed instances of `upsert_semantics` at concrete inputs. -/
theorem upsert_semantics_witness :
    ((FsRepo.insert (.obj []) (.str "7") (.obj [("a", .num 1)])).2.2
        = (keyGet (JsonV.obj []).fieldsOf (JsId.str "7").key).isNone ∧
      keyGet (FsRepo.insert (.obj []) (.str "7")
          (.obj [("a", .num 1)])).1.fieldsOf (JsId.str "7").key
        = some (.obj (keySet (JsonV.obj [("a", .num 1)]).fieldsOf
            FsRepo.idField (JsId.str "7").val))) ∧
    MongoRepo.update [("X", [("a", .num 1)])] "X" [("b", .num 2)]
      = (keySet [("X", [("a", JsonV.num 1)])] "X"
          (MongoRepo.applySet [("a", .num 1)] [("b", .num 2)]),
         decide (MongoRepo.applySet [("a", JsonV.num 1)] [("b", JsonV.num 2)]
            = [("a", JsonV.num 1)])) ∧
    MongoRepo.update [] "X" [("a", .num 1)]
      = ([("X", [("a", JsonV.num 1)])], true) := by
  refine ⟨upsert_semantics.1 (.obj []) (.str "7") (.obj [("a", .num 1)]),
    upsert_semantics.2.1 [("X", [("a", .num 1)])] "X" [("b", .num 2)]
      [("a", .num 1)] (by decide), ?_⟩
  have h := upsert_semantics.2.2 [] "X" [("a", JsonV.num 1)] (by decide)
  simpa using h

/-- C2 counterexample: against the document store, updating the existing
document `{_id: X, a: 1, b: 2}` with `{a: 5}` leaves `b` in place — the
stored record does not equal the supplied data (fields merge) — and
updating an existing document with identical content reports
`created = true` although the identifier existed. -/
theorem update_merges_fields :
    (MongoRepo.update [("X", [("a", .num 1), ("b", .num 2)])] "X"
        [("a", .num 5)]).1
      = [("X", [("a", .num 5), ("b", .num 2)])] ∧
    decide ((MongoRepo.update [("X", [("a", JsonV.num 1), ("b", JsonV.num 2)])]
          "X" [("a", JsonV.num 5)]).1
        = [("X", [("a", JsonV.num 5)])]) = false ∧
    (MongoRepo.update [("Y", [("a", .num 1)])] "Y" [("a", .num 1)]).2
      = true := by
  refine ⟨by decide, by decide, by decide⟩

/-- C10: after `insert` — the common path of `create` and `update` — the
caller's data object itself carries `_id` equal to the identifier, the
dataset maps the identifier's key to exactly that object, and the
key/`_id` discipline `IdInv` is preserved by insertion and by removal. -/
theorem id_field_invariant :
    (∀ (dataset : JsonV) (id : JsId) (data : JsonV),
        (FsRepo.insert dataset id data).2.1
            = .obj (keySet data.fieldsOf FsRepo.idField id.val) ∧
        keyGet (FsRepo.insert dataset id data).1.fieldsOf id.key
            = some ((FsRepo.insert dataset id data).2.1) ∧
        keyGet (FsRepo.insert dataset id data).2.1.fieldsOf FsRepo.idField
            = some id.val) ∧
    (∀ (d : List (String × JsonV)) (id : JsId) (data : JsonV),
        IdInv d → IdInv (FsRepo.insert (.obj d) id data).1.fieldsOf) ∧
    (∀ (d : List (String × JsonV)) (k : String),
        IdInv d → IdInv (keyDel d k)) := by
  refine ⟨?_, ?_, ?_⟩
  · intro dataset id data
    refine ⟨rfl, keyGet_keySet_self .., ?_⟩
    show keyGet (JsonV.obj (keySet data.fieldsOf FsRepo.idField id.val)).fieldsOf
        FsRepo.idField = some id.val
    exact keyGet_keySet_self ..
  · intro d id data hinv kv hkv
    rcases mem_keySet _ _ _ kv hkv with h | h
    · refine ⟨id, by rw [h], ?_⟩
      rw [h]
      exact keyGet_keySet_self ..
    · exact hinv kv h
  · intro d k hinv kv hkv
    exact hinv kv (mem_keyDel _ _ kv hkv)

/-- Closed instances of `id_field_invariant` at concrete inputs. -/
theorem id_field_invariant_witness :
    keyGet (FsRepo.insert (.obj []) (.num 3)
        (.obj [("item", .str "pen")])).2.1.fieldsOf FsRepo.idField
      = some (JsId.num 3).val ∧
    IdInv (FsRepo.insert (.obj [("1", .obj [("_id", .str "1")])])
        (.num 2) (.obj [])).1.fieldsOf ∧
    IdInv (keyDel [("1", JsonV.obj [("_id", JsonV.str "1")])] "1") := by
  have hconc : IdInv [("1", JsonV.obj [("_id", JsonV.str "1")])] := by
    intro kv hkv
    simp only [List.mem_singleton] at hkv
    subst hkv
    exact ⟨.str "1", rfl, rfl⟩
  exact ⟨(id_field_invariant.1 (.obj []) (.num 3) (.obj [("item", .str "pen")])).2.2,
    id_field_invariant.2.1 [("1", .obj [("_id", .str "1")])] (.num 2) (.obj []) hconc,
    id_field_invariant.2.2 [("1", .obj [("_id", .str "1")])] "1" hconc⟩

/-- C7: `delete` reports `true` exactly when the record was present and the
persist succeeded, reports `false` with untouched state (and no error) when
the identifier was absent — in both backends — and a successful `create`
followed by `delete` of the returned identifier leaves a `read` that
excludes that identifier. -/
theorem delete_reports_presence :
    (∀ (fsys : FsRepo.FileSys) (ns dataId : String) (d : JsonV) (saveOk : Bool),
        FsRepo.getDataset fsys ns = .ok d →
        keyGet d.fieldsOf dataId = none →
        FsRepo.remove fsys ns dataId saveOk = some (fsys, none, false)) ∧
    (∀ (fsys : FsRepo.FileSys) (ns dataId : String) (d r : JsonV),
        FsRepo.getDataset fsys ns = .ok d →
        keyGet d.fieldsOf dataId = some r →
        FsRepo.remove fsys ns dataId true
          = some (keySet fsys ns (stringify (.obj (keyDel d.fieldsOf dataId))),
                  none, true)) ∧
    (∀ (db : MongoRepo.MDb) (id : String) (doc : List (String × JsonV)),
        keyGet db id = some doc →
        MongoRepo.remove db id = (keyDel db id, true)) ∧
    (∀ (db : MongoRepo.MDb) (id : String),
        keyGet db id = none → MongoRepo.remove db id = (db, false)) ∧
    (∀ (fsys : FsRepo.FileSys) (ns : String) (data : JsonV)
        (d : List (String × JsonV)),
        FsRepo.loadData fsys ns = .ok (.obj d) →
        NodupKeys d → IdInv d →
        ∀ (fsys1 : FsRepo.FileSys) (id : Option Int) (err : Option Unit),
          FsRepo.create fsys ns data true = some (fsys1, id, err) →
          ∃ (fsys2 : FsRepo.FileSys) (vs : List JsonV),
            FsRepo.remove fsys1 ns (numId id).key true
                = some (fsys2, none, true) ∧
            FsRepo.list fsys2 ns = some vs ∧
            ∀ r ∈ vs,
              ¬ (keyGet r.fieldsOf FsRepo.idField = some (numId id).val)) := by
  refine ⟨?_, ?_, ?_, ?_, ?_⟩
  · intro fsys ns dataId d saveOk hget habs
    simp [FsRepo.remove, hget, habs]
  · intro fsys ns dataId d r hget hpres
    simp [FsRepo.remove, hget, hpres, FsRepo.save]
  · intro db id doc h
    simp [MongoRepo.remove, MongoRepo.deleteOne, h]
  · intro db id h
    simp [MongoRepo.remove, MongoRepo.deleteOne, h]
  · intro fsys ns data d hload hnd hinv fsys1 id err hcreate
    have hget : FsRepo.getDataset fsys ns = .ok (.obj d) := by
      simp [FsRepo.getDataset, hload]
    rw [create_ok fsys ns data (.obj d) hget] at hcreate
    obtain ⟨hf1, hid, herr⟩ :
        keySet fsys ns (stringify (FsRepo.createStage (.obj d) data).2) = fsys1
          ∧ (FsRepo.createStage (.obj d) data).1 = id
          ∧ (none : Option Unit) = err := by
      simpa using hcreate
    have hS2 : (FsRepo.createStage (.obj d) data).2
        = .obj (keySet d (numId (FsRepo.createStage (.obj d) data).1).key
            (.obj (keySet data.fieldsOf FsRepo.idField
              (numId (FsRepo.createStage (.obj d) data).1).val))) := rfl
    subst hid
    set K := (numId (FsRepo.createStage (.obj d) data).1).key with hK
    set W := (numId (FsRepo.createStage (.obj d) data).1).val with hW
    set REC := JsonV.obj (keySet data.fieldsOf FsRepo.idField W) with hREC
    set D1 := keySet d K REC with hD1
    have hget1 : FsRepo.getDataset fsys1 ns = .ok (.obj D1) := by
      rw [← hf1, hS2]
      simp [FsRepo.getDataset, loadData_after_save, hD1]
    have hrem : FsRepo.remove fsys1 ns K true
        = some (keySet fsys1 ns (stringify (.obj (keyDel D1 K))), none, true) := by
      have hpres : keyGet (JsonV.obj D1).fieldsOf K = some REC := by
        simpa [JsonV.fieldsOf, hD1] using keyGet_keySet_self d K REC
      simp [FsRepo.remove, hget1, hpres, FsRepo.save, JsonV.fieldsOf, hD1,
        keyGet_keySet_self]
    refine ⟨keySet fsys1 ns (stringify (.obj (keyDel D1 K))),
      objValues (.obj (keyDel D1 K)), hrem, ?_, ?_⟩
    · simp [FsRepo.list, FsRepo.getDataset, loadData_after_save]
    · intro r hr hcontra
      rcases List.mem_map.mp hr with ⟨kv, hkv, hsnd⟩
      have hd1nd : NodupKeys D1 := nodupKeys_keySet d K REC hnd
      have hkne : kv.1 ≠ K := mem_keyDel_key_ne D1 K hd1nd kv hkv
      have hmem1 : kv ∈ D1 := mem_keyDel D1 K kv hkv
      rcases mem_keySet d K REC kv hmem1 with he | he
      · exact hkne (by rw [he])
      · obtain ⟨id', hkey', hval'⟩ := hinv kv he
        rw [hsnd, hcontra] at hval'
        have hvk : id'.key = K :=
          JsId.val_inj id' _ ((Option.some.inj hval').symm)
        exact hkne (hkey'.trans hvk)

/-- Closed instances of `delete_reports_presence` at concrete inputs. -/
theorem delete_reports_presence_witness :
    FsRepo.remove [] "orders" "9" true = some ([], none, false) ∧
    FsRepo.remove (keySet [] "orders" (stringify (.obj [("1", .num 5)])))
        "orders" "1" true
      = some (keySet (keySet [] "orders" (stringify (.obj [("1", .num 5)])))
            "orders" (stringify (.obj (keyDel [("1", .num 5)] "1"))),
          none, true) ∧
    MongoRepo.remove [("X", [("a", .num 1)])] "X"
      = (keyDel [("X", [("a", JsonV.num 1)])] "X", true) ∧
    MongoRepo.remove [] "X" = ([], false) ∧
    (∃ (fsys2 : FsRepo.FileSys) (vs : List JsonV),
      FsRepo.remove
          (keySet [] "orders" (stringify (FsRepo.createStage (.obj [])
              (.obj [("item", .str "pen")])).2))
          "orders"
          (numId (FsRepo.createStage (.obj [])
              (.obj [("item", .str "pen")])).1).key true
        = some (fsys2, none, true) ∧
      FsRepo.list fsys2 "orders" = some vs ∧
      ∀ r ∈ vs,
        ¬ (keyGet r.fieldsOf FsRepo.idField
            = some (numId (FsRepo.createStage (.obj [])
                (.obj [("item", .str "pen")])).1).val)) := by
  refine ⟨?_, ?_, ?_, ?_, ?_⟩
  · exact delete_reports_presence.1 [] "orders" "9" (.obj []) true rfl rfl
  · exact delete_reports_presence.2.1 _ "orders" "1" (.obj [("1", .num 5)])
      (.num 5) (by simp [FsRepo.getDataset, loadData_after_save]) rfl
  · exact delete_reports_presence.2.2.1 [("X", [("a", .num 1)])] "X"
      [("a", .num 1)] rfl
  · exact delete_reports_presence.2.2.2.1 [] "X" rfl
  · exact delete_reports_presence.2.2.2.2 [] "orders"
      (.obj [("item", .str "pen")]) [] rfl (by simp [NodupKeys]) (by simp [IdInv])
      _ _ _ (create_ok [] "orders" (.obj [("item", .str "pen")]) (.obj []) rfl)

end MyData
